import Mathlib

/-!
Shallow embedding of the transaction-event consumer of
`backend/app/api/routes/new_routes/porfolio_service.py` (the `consume_messages`
loop, lines 101-163, operating on the `holdings` table of `DBHolding` rows),
together with theorems settling the frozen claims about it.

Modelling conventions:
* Python `float` fields (`quantity`, `average_cost`, `amount`) are modelled as
  exact rationals `ℚ`; the claims are about the exact arithmetic contracts.
* The `holdings` table is a list of rows; `db.exec(select(...)).first()` is
  `List.find?`, the ORM update of a fetched row is replacement of the first
  matching row, `db.delete` removal of the first matching row.
* SQL `ILIKE` without wildcard characters is case-insensitive string equality,
  via `String.toUpper`; Python `str.upper()` is `String.toUpper` as well.
* Python truthiness guards (`transaction.symbol and transaction.quantity`)
  are modelled exactly: `None` and the empty string and `0` are falsy.
* `last_updated` (wall-clock metadata set from `datetime.now()`) and the
  `timestamp` field of the event are not part of the embedded state; no claim
  is about them.
* The Kafka envelope (`event_type == "transaction_completed"`, JSON decode) is
  outside the embedded step; the embedding starts at the validated
  `Transaction` value.
-/

namespace PortfolioService

/-- A row of the `holdings` table (`DBHolding` in the source), without the
`id` primary key and the `last_updated` wall-clock column. -/
structure DBHolding where
  user_id : String
  symbol : String
  quantity : ℚ
  average_cost : ℚ
deriving DecidableEq, Repr

/-- The validated Kafka payload (`Transaction` pydantic model in the source):
`symbol` and `quantity` are `Optional`, `amount` and the other fields are
required. The `timestamp` field is omitted (never read by the consumer). -/
structure Transaction where
  transaction_id : String
  user_id : String
  type : String
  symbol : Option String
  quantity : Option ℚ
  amount : ℚ
deriving DecidableEq, Repr

/-- Python truthiness of the optional `symbol` field: `None` and `""` are
falsy. -/
def symTruthy : Option String → Bool
  | none => false
  | some s => !(s == "")

/-- Python truthiness of the optional `quantity` field: `None` and `0` are
falsy. -/
def qtyTruthy : Option ℚ → Bool
  | none => false
  | some q => !(q == 0)

/-- SQL `ILIKE` of a stored symbol against the event's optional symbol, for
patterns without wildcard characters: case-insensitive equality; `ILIKE NULL`
matches nothing. -/
def ilikeSym (stored : String) (pat : Option String) : Bool :=
  match pat with
  | none => false
  | some p => stored.toUpper == p.toUpper

/-- The row filter of the `select(DBHolding).where(...)` statement in the
source: same `user_id`, symbol matching case-insensitively. -/
def rowMatches (t : Transaction) (h : DBHolding) : Bool :=
  h.user_id == t.user_id && ilikeSym h.symbol t.symbol

/-- The `db.exec(statement).first()` lookup: first row matching the event. -/
def findHolding (store : List DBHolding) (t : Transaction) : Option DBHolding :=
  store.find? (rowMatches t)

/-- ORM update of a fetched row: replace the first row satisfying `p`. -/
def replaceFirst (p : DBHolding → Bool) (new : DBHolding) :
    List DBHolding → List DBHolding
  | [] => []
  | h :: rest => if p h then new :: rest else h :: replaceFirst p new rest

/-- ORM `db.delete` of a fetched row: remove the first row satisfying `p`. -/
def removeFirst (p : DBHolding → Bool) : List DBHolding → List DBHolding
  | [] => []
  | h :: rest => if p h then rest else h :: removeFirst p rest

/-- Reason attached to a rejection in the specification's error taxonomy. -/
inductive Reason
  | malformed
  | insufficientHoldings
  | storeUnavailable
deriving DecidableEq, Repr

/-- Observable outcome of processing one event. The first seven constructors
are the branches the source actually takes (named after its log lines); the
`rejected` constructor is the outcome the specification prescribes for
malformed or insufficient-holdings events — the source never produces it,
which several claims turn on. -/
inductive Outcome
  | created
  | updated
  | soldPartial
  | soldDeleted
  | warnInsufficient
  | warnNoHolding
  | noOp
  | rejected : Reason → Outcome
deriving DecidableEq, Repr

/-- One iteration of the consumer loop body on a validated transaction,
source lines 112-159: the `select ... first()` lookup, then the
`buy` / `sell` / fall-through dispatch with Python-truthiness guards, with
the resulting table state and observable outcome. -/
def processEvent (store : List DBHolding) (t : Transaction) :
    List DBHolding × Outcome :=
  let found := findHolding store t
  if t.type == "buy" && symTruthy t.symbol && qtyTruthy t.quantity then
    let q := t.quantity.getD 0
    match found with
    | none =>
      let price_per_unit := if qtyTruthy t.quantity then t.amount / q else 0
      (store ++ [{ user_id := t.user_id
                   symbol := (t.symbol.getD "").toUpper
                   quantity := q
                   average_cost := price_per_unit }], .created)
    | some h =>
      let total_qty := h.quantity + q
      let avg := if total_qty > 0 then
          (h.quantity * h.average_cost + q * (t.amount / q)) / total_qty
        else h.average_cost
      (replaceFirst (rowMatches t)
        { h with quantity := total_qty, average_cost := avg } store, .updated)
  else if t.type == "sell" && symTruthy t.symbol && qtyTruthy t.quantity then
    let q := t.quantity.getD 0
    match found with
    | some h =>
      if h.quantity ≥ q then
        if h.quantity - q = 0 then
          (removeFirst (rowMatches t) store, .soldDeleted)
        else
          (replaceFirst (rowMatches t) { h with quantity := h.quantity - q }
            store, .soldPartial)
      else (store, .warnInsufficient)
    | none => (store, .warnNoHolding)
  else (store, .noOp)

/-- The consumer loop folded over a finite list of delivered events. -/
def applyEvents (store : List DBHolding) (events : List Transaction) :
    List DBHolding :=
  events.foldl (fun s e => (processEvent s e).1) store

/-- Buy transaction built from a `(quantity, amount)` pair, used to state the
order-independence claim about sequences of buys. -/
def mkBuy (uid sym : String) (p : ℚ × ℚ) : Transaction :=
  { transaction_id := ""
    user_id := uid
    type := "buy"
    symbol := some sym
    quantity := some p.1
    amount := p.2 }

/-! Helper lemmas about ASCII upper-casing, the row-list primitives, and the
branches of `processEvent`. -/

lemma char_toUpper_eq (c : Char) :
    c.toUpper = if c.toNat ≥ 97 ∧ c.toNat ≤ 122 then Char.ofNat (c.toNat - 32) else c := rfl

lemma char_toUpper_idem (c : Char) : c.toUpper.toUpper = c.toUpper := by
  rw [char_toUpper_eq c]
  by_cases h : c.toNat ≥ 97 ∧ c.toNat ≤ 122
  · rw [if_pos h]
    obtain ⟨h1, h2⟩ := h
    generalize c.toNat = n at h1 h2
    interval_cases n <;> decide
  · rw [if_neg h, char_toUpper_eq c, if_neg h]

lemma string_toUpper_idem (s : String) : s.toUpper.toUpper = s.toUpper := by
  simp only [String.toUpper, String.map_eq]
  simp only [List.map_map]
  congr 1
  apply List.map_congr_left
  intro c _
  exact char_toUpper_idem c

lemma mem_replaceFirst (p : DBHolding → Bool) (new x : DBHolding)
    (l : List DBHolding) (hx : x ∈ replaceFirst p new l) : x = new ∨ x ∈ l := by
  induction l with
  | nil => simp [replaceFirst] at hx
  | cons h rest ih =>
    simp only [replaceFirst] at hx
    by_cases hp : p h
    · rw [if_pos hp] at hx
      rcases List.mem_cons.mp hx with h1 | h1
      · exact Or.inl h1
      · exact Or.inr (List.mem_cons_of_mem _ h1)
    · rw [if_neg hp] at hx
      rcases List.mem_cons.mp hx with h1 | h1
      · exact Or.inr (h1 ▸ List.mem_cons_self _ _)
      · rcases ih h1 with h2 | h2
        · exact Or.inl h2
        · exact Or.inr (List.mem_cons_of_mem _ h2)

lemma length_replaceFirst (p : DBHolding → Bool) (new : DBHolding)
    (l : List DBHolding) : (replaceFirst p new l).length = l.length := by
  induction l with
  | nil => rfl
  | cons h rest ih =>
    simp only [replaceFirst]
    by_cases hp : p h
    · rw [if_pos hp]; simp
    · rw [if_neg hp]; simp [ih]

lemma mem_removeFirst (p : DBHolding → Bool) (x : DBHolding)
    (l : List DBHolding) (hx : x ∈ removeFirst p l) : x ∈ l := by
  induction l with
  | nil => simp [removeFirst] at hx
  | cons h rest ih =>
    simp only [removeFirst] at hx
    by_cases hp : p h
    · rw [if_pos hp] at hx
      exact List.mem_cons_of_mem _ hx
    · rw [if_neg hp] at hx
      rcases List.mem_cons.mp hx with h1 | h1
      · exact h1 ▸ List.mem_cons_self _ _
      · exact List.mem_cons_of_mem _ (ih h1)

lemma find?_removeFirst (p : DBHolding → Bool) (l : List DBHolding)
    (hc : l.countP p ≤ 1) : (removeFirst p l).find? p = none := by
  induction l with
  | nil => rfl
  | cons h rest ih =>
    simp only [removeFirst]
    by_cases hp : p h
    · rw [if_pos hp]
      rw [List.countP_cons_of_pos _ _ hp] at hc
      have h0 : rest.countP p = 0 := by omega
      rw [List.find?_eq_none]
      intro x hx hpx
      have := (List.countP_eq_zero).mp h0 x hx
      simp [hpx] at this
    · rw [if_neg hp]
      rw [List.find?_cons_of_neg _ hp]
      rw [List.countP_cons_of_neg _ _ hp] at hc
      exact ih hc

lemma processEvent_buy_new (store : List DBHolding) (t : Transaction) (s : String) (q : ℚ)
    (ht : t.type = "buy") (hs : t.symbol = some s) (hs0 : s ≠ "")
    (hq : t.quantity = some q) (hq0 : q ≠ 0)
    (hf : findHolding store t = none) :
    processEvent store t =
      (store ++ [⟨t.user_id, s.toUpper, q, t.amount / q⟩], .created) := by
  simp only [processEvent, ht, hs, hq, symTruthy, qtyTruthy, hf, Option.getD_some]
  simp [hs0, hq0]

lemma processEvent_buy_existing (store : List DBHolding) (t : Transaction) (s : String)
    (q : ℚ) (h : DBHolding)
    (ht : t.type = "buy") (hs : t.symbol = some s) (hs0 : s ≠ "")
    (hq : t.quantity = some q) (hq0 : q ≠ 0)
    (hf : findHolding store t = some h) :
    processEvent store t =
      (replaceFirst (rowMatches t)
        ⟨h.user_id, h.symbol, h.quantity + q,
          if h.quantity + q > 0 then
            (h.quantity * h.average_cost + q * (t.amount / q)) / (h.quantity + q)
          else h.average_cost⟩ store, .updated) := by
  simp only [processEvent, ht, hs, hq, symTruthy, qtyTruthy, hf, Option.getD_some]
  simp [hs0, hq0]

lemma processEvent_sell_update (store : List DBHolding) (t : Transaction) (s : String)
    (q : ℚ) (h : DBHolding)
    (ht : t.type = "sell") (hs : t.symbol = some s) (hs0 : s ≠ "")
    (hq : t.quantity = some q) (hq0 : q ≠ 0)
    (hf : findHolding store t = some h) (hle : q ≤ h.quantity) (hne : h.quantity - q ≠ 0) :
    processEvent store t =
      (replaceFirst (rowMatches t)
        ⟨h.user_id, h.symbol, h.quantity - q, h.average_cost⟩ store, .soldPartial) := by
  simp only [processEvent, ht, hs, hq, symTruthy, qtyTruthy, hf, Option.getD_some]
  simp [hs0, hq0, hle, hne]

lemma processEvent_sell_all (store : List DBHolding) (t : Transaction) (s : String)
    (q : ℚ) (h : DBHolding)
    (ht : t.type = "sell") (hs : t.symbol = some s) (hs0 : s ≠ "")
    (hq : t.quantity = some q) (hq0 : q ≠ 0)
    (hf : findHolding store t = some h) (heq : h.quantity - q = 0) :
    processEvent store t = (removeFirst (rowMatches t) store, .soldDeleted) := by
  have hle : q ≤ h.quantity := by linarith [sub_eq_zero.mp heq]
  simp only [processEvent, ht, hs, hq, symTruthy, qtyTruthy, hf, Option.getD_some]
  simp [hs0, hq0, hle, heq]

lemma processEvent_sell_insufficient (store : List DBHolding) (t : Transaction) (s : String)
    (q : ℚ) (h : DBHolding)
    (ht : t.type = "sell") (hs : t.symbol = some s) (hs0 : s ≠ "")
    (hq : t.quantity = some q) (hq0 : q ≠ 0)
    (hf : findHolding store t = some h) (hlt : h.quantity < q) :
    processEvent store t = (store, .warnInsufficient) := by
  simp only [processEvent, ht, hs, hq, symTruthy, qtyTruthy, hf, Option.getD_some]
  simp [hs0, hq0, not_le.mpr hlt, hlt.not_le]

lemma processEvent_sell_missing (store : List DBHolding) (t : Transaction) (s : String)
    (q : ℚ)
    (ht : t.type = "sell") (hs : t.symbol = some s) (hs0 : s ≠ "")
    (hq : t.quantity = some q) (hq0 : q ≠ 0)
    (hf : findHolding store t = none) :
    processEvent store t = (store, .warnNoHolding) := by
  simp only [processEvent, ht, hs, hq, symTruthy, qtyTruthy, hf, Option.getD_some]
  simp [hs0, hq0]

lemma processEvent_falsy (store : List DBHolding) (t : Transaction)
    (h : symTruthy t.symbol = false ∨ qtyTruthy t.quantity = false) :
    processEvent store t = (store, .noOp) := by
  rcases h with h | h <;> simp [processEvent, h]

lemma processEvent_other_type (store : List DBHolding) (t : Transaction)
    (hb : t.type ≠ "buy") (hs : t.type ≠ "sell") :
    processEvent store t = (store, .noOp) := by
  simp [processEvent, hb, hs]


lemma rowMatches_mkBuy_upper (uid sym : String) (p : ℚ × ℚ) (x y : ℚ) :
    rowMatches (mkBuy uid sym p) ⟨uid, sym.toUpper, x, y⟩ = true := by
  simp [rowMatches, mkBuy, ilikeSym, string_toUpper_idem]

lemma findHolding_cons_pos (h : DBHolding) (rest : List DBHolding) (t : Transaction)
    (hm : rowMatches t h = true) : findHolding (h :: rest) t = some h :=
  List.find?_cons_of_pos rest hm

lemma sum_weighted_eq_sum_amount (l : List (ℚ × ℚ)) (hq : ∀ p ∈ l, p.1 ≠ 0) :
    (l.map fun p => p.1 * (p.2 / p.1)).sum = (l.map Prod.snd).sum := by
  induction l with
  | nil => rfl
  | cons p rest ih =>
    simp only [List.map_cons, List.sum_cons]
    rw [ih fun x hx => hq x (List.mem_cons_of_mem _ hx)]
    have hp : p.1 ≠ 0 := hq p (List.mem_cons_self _ _)
    field_simp

lemma applyEvents_buys (uid sym : String) (hsym : sym ≠ "") (l : List (ℚ × ℚ)) :
    ∀ q0 c0 : ℚ, (∀ p ∈ l, 0 < p.1) → 0 < q0 →
    applyEvents [⟨uid, sym.toUpper, q0, c0 / q0⟩] (l.map (mkBuy uid sym)) =
      [⟨uid, sym.toUpper, q0 + (l.map Prod.fst).sum,
        (c0 + (l.map Prod.snd).sum) / (q0 + (l.map Prod.fst).sum)⟩] := by
  induction l with
  | nil =>
    intro q0 c0 _ _
    simp [applyEvents]
  | cons p rest ih =>
    intro q0 c0 hq hq0
    have hp : 0 < p.1 := hq p (List.mem_cons_self _ _)
    have hstep :
        processEvent [⟨uid, sym.toUpper, q0, c0 / q0⟩] (mkBuy uid sym p) =
          ([⟨uid, sym.toUpper, q0 + p.1, (c0 + p.2) / (q0 + p.1)⟩], .updated) := by
      rw [processEvent_buy_existing _ _ sym p.1 ⟨uid, sym.toUpper, q0, c0 / q0⟩
        rfl rfl hsym rfl (ne_of_gt hp)
        (findHolding_cons_pos _ _ _ (rowMatches_mkBuy_upper uid sym p q0 (c0 / q0)))]
      have hpos : (0 : ℚ) < q0 + p.1 := by linarith
      have havg : (q0 * (c0 / q0) + p.1 * ((mkBuy uid sym p).amount / p.1)) / (q0 + p.1) =
          (c0 + p.2) / (q0 + p.1) := by
        have h1 : q0 * (c0 / q0) = c0 := by field_simp
        have h2 : p.1 * ((mkBuy uid sym p).amount / p.1) = p.2 := by
          have : (mkBuy uid sym p).amount = p.2 := rfl
          rw [this]; field_simp
        rw [h1, h2]
      simp only [hpos, if_pos, gt_iff_lt, havg]
      rw [replaceFirst, if_pos (rowMatches_mkBuy_upper uid sym p q0 (c0 / q0))]
    have hchain : applyEvents [⟨uid, sym.toUpper, q0, c0 / q0⟩]
        ((p :: rest).map (mkBuy uid sym)) =
        applyEvents (processEvent [⟨uid, sym.toUpper, q0, c0 / q0⟩] (mkBuy uid sym p)).1
          (rest.map (mkBuy uid sym)) := rfl
    rw [hchain, hstep]
    rw [ih (q0 + p.1) (c0 + p.2) (fun x hx => hq x (List.mem_cons_of_mem _ hx)) (by linarith)]
    simp only [List.map_cons, List.sum_cons]
    rw [add_assoc, add_assoc]

/-- Branch-level transition relation of the consumer loop body: one
constructor per branch of the source's buy/sell/fall-through dispatch, with
that branch's guard conditions as premises and its effect on the holdings
table as conclusion. Used to state that the reduction step is deterministic. -/
inductive Reduces : List DBHolding → Transaction → List DBHolding → Outcome → Prop
  | buyNew (store : List DBHolding) (t : Transaction) (s : String) (q : ℚ)
      (ht : t.type = "buy") (hs : t.symbol = some s) (hs0 : s ≠ "")
      (hq : t.quantity = some q) (hq0 : q ≠ 0)
      (hf : findHolding store t = none) :
      Reduces store t (store ++ [⟨t.user_id, s.toUpper, q, t.amount / q⟩]) .created
  | buyExisting (store : List DBHolding) (t : Transaction) (s : String) (q : ℚ)
      (h : DBHolding)
      (ht : t.type = "buy") (hs : t.symbol = some s) (hs0 : s ≠ "")
      (hq : t.quantity = some q) (hq0 : q ≠ 0)
      (hf : findHolding store t = some h) :
      Reduces store t
        (replaceFirst (rowMatches t)
          ⟨h.user_id, h.symbol, h.quantity + q,
            if h.quantity + q > 0 then
              (h.quantity * h.average_cost + q * (t.amount / q)) / (h.quantity + q)
            else h.average_cost⟩ store) .updated
  | sellPartial (store : List DBHolding) (t : Transaction) (s : String) (q : ℚ)
      (h : DBHolding)
      (ht : t.type = "sell") (hs : t.symbol = some s) (hs0 : s ≠ "")
      (hq : t.quantity = some q) (hq0 : q ≠ 0)
      (hf : findHolding store t = some h) (hle : q ≤ h.quantity)
      (hne : h.quantity - q ≠ 0) :
      Reduces store t
        (replaceFirst (rowMatches t)
          ⟨h.user_id, h.symbol, h.quantity - q, h.average_cost⟩ store) .soldPartial
  | sellAll (store : List DBHolding) (t : Transaction) (s : String) (q : ℚ)
      (h : DBHolding)
      (ht : t.type = "sell") (hs : t.symbol = some s) (hs0 : s ≠ "")
      (hq : t.quantity = some q) (hq0 : q ≠ 0)
      (hf : findHolding store t = some h) (heq : h.quantity - q = 0) :
      Reduces store t (removeFirst (rowMatches t) store) .soldDeleted
  | sellInsufficient (store : List DBHolding) (t : Transaction) (s : String) (q : ℚ)
      (h : DBHolding)
      (ht : t.type = "sell") (hs : t.symbol = some s) (hs0 : s ≠ "")
      (hq : t.quantity = some q) (hq0 : q ≠ 0)
      (hf : findHolding store t = some h) (hlt : h.quantity < q) :
      Reduces store t store .warnInsufficient
  | sellMissing (store : List DBHolding) (t : Transaction) (s : String) (q : ℚ)
      (ht : t.type = "sell") (hs : t.symbol = some s) (hs0 : s ≠ "")
      (hq : t.quantity = some q) (hq0 : q ≠ 0)
      (hf : findHolding store t = none) :
      Reduces store t store .warnNoHolding
  | fallThrough (store : List DBHolding) (t : Transaction)
      (hb : ¬(t.type = "buy" ∧ symTruthy t.symbol = true ∧ qtyTruthy t.quantity = true))
      (hs : ¬(t.type = "sell" ∧ symTruthy t.symbol = true ∧ qtyTruthy t.quantity = true)) :
      Reduces store t store .noOp

lemma reduces_processEvent (store : List DBHolding) (t : Transaction)
    (store' : List DBHolding) (o : Outcome) (hr : Reduces store t store' o) :
    processEvent store t = (store', o) := by
  cases hr with
  | buyNew s q ht hs hs0 hq hq0 hf =>
    exact processEvent_buy_new store t s q ht hs hs0 hq hq0 hf
  | buyExisting s q h ht hs hs0 hq hq0 hf =>
    exact processEvent_buy_existing store t s q h ht hs hs0 hq hq0 hf
  | sellPartial s q h ht hs hs0 hq hq0 hf hle hne =>
    exact processEvent_sell_update store t s q h ht hs hs0 hq hq0 hf hle hne
  | sellAll s q h ht hs hs0 hq hq0 hf heq =>
    exact processEvent_sell_all store t s q h ht hs hs0 hq hq0 hf heq
  | sellInsufficient s q h ht hs hs0 hq hq0 hf hlt =>
    exact processEvent_sell_insufficient store t s q h ht hs hs0 hq hq0 hf hlt
  | sellMissing s q ht hs hs0 hq hq0 hf =>
    exact processEvent_sell_missing store t s q ht hs hs0 hq hq0 hf
  | fallThrough hb hs =>
    by_cases hsy : symTruthy t.symbol = true
    · by_cases hqy : qtyTruthy t.quantity = true
      · by_cases htb : t.type = "buy"
        · exact absurd ⟨htb, hsy, hqy⟩ hb
        · by_cases hts : t.type = "sell"
          · exact absurd ⟨hts, hsy, hqy⟩ hs
          · exact processEvent_other_type store t htb hts
      · exact processEvent_falsy store t (Or.inr (by simpa using hqy))
    · exact processEvent_falsy store t (Or.inl (by simpa using hsy))

lemma processEvent_pos_quantity (store : List DBHolding) (t : Transaction)
    (hb : t.type = "buy" → ∀ q, t.quantity = some q → 0 < q)
    (hinv : ∀ h ∈ store, 0 < h.quantity) :
    ∀ h ∈ (processEvent store t).1, 0 < h.quantity := by
  rcases hsym : t.symbol with _ | s
  · rw [processEvent_falsy store t (Or.inl (by simp [symTruthy, hsym]))]
    exact hinv
  rcases hqty : t.quantity with _ | q
  · rw [processEvent_falsy store t (Or.inr (by simp [qtyTruthy, hqty]))]
    exact hinv
  by_cases hs0 : s = ""
  · rw [processEvent_falsy store t (Or.inl (by simp [symTruthy, hsym, hs0]))]
    exact hinv
  by_cases hq0 : q = 0
  · rw [processEvent_falsy store t (Or.inr (by simp [qtyTruthy, hqty, hq0]))]
    exact hinv
  by_cases htb : t.type = "buy"
  · have hqpos : 0 < q := hb htb q hqty
    rcases hf : findHolding store t with _ | h
    · rw [processEvent_buy_new store t s q htb hsym hs0 hqty hq0 hf]
      intro x hx
      rcases List.mem_append.mp hx with h1 | h1
      · exact hinv x h1
      · have hx2 : x = (⟨t.user_id, s.toUpper, q, t.amount / q⟩ : DBHolding) := by
          simpa using h1
        rw [hx2]
        exact hqpos
    · rw [processEvent_buy_existing store t s q h htb hsym hs0 hqty hq0 hf]
      intro x hx
      rcases mem_replaceFirst _ _ _ _ hx with h1 | h1
      · have hhq : 0 < h.quantity :=
          hinv h (List.mem_of_find?_eq_some hf)
        rw [h1]
        show 0 < h.quantity + q
        linarith
      · exact hinv x h1
  by_cases hts : t.type = "sell"
  · rcases hf : findHolding store t with _ | h
    · rw [processEvent_sell_missing store t s q hts hsym hs0 hqty hq0 hf]
      exact hinv
    · rcases le_or_lt q h.quantity with hle | hlt
      · by_cases hz : h.quantity - q = 0
        · rw [processEvent_sell_all store t s q h hts hsym hs0 hqty hq0 hf hz]
          intro x hx
          exact hinv x (mem_removeFirst _ _ _ hx)
        · rw [processEvent_sell_update store t s q h hts hsym hs0 hqty hq0 hf hle hz]
          intro x hx
          rcases mem_replaceFirst _ _ _ _ hx with h1 | h1
          · rw [h1]
            show 0 < h.quantity - q
            exact lt_of_le_of_ne (sub_nonneg.mpr hle) (Ne.symm hz)
          · exact hinv x h1
      · rw [processEvent_sell_insufficient store t s q h hts hsym hs0 hqty hq0 hf hlt]
        exact hinv
  · rw [processEvent_other_type store t htb hts]
    exact hinv

lemma applyEvents_pos_quantity (events : List Transaction) :
    ∀ store : List DBHolding,
    (∀ e ∈ events, e.type = "buy" → ∀ q, e.quantity = some q → 0 < q) →
    (∀ h ∈ store, 0 < h.quantity) →
    ∀ h ∈ applyEvents store events, 0 < h.quantity := by
  induction events with
  | nil =>
    intro store _ hinv
    simpa [applyEvents] using hinv
  | cons e rest ih =>
    intro store hbs hinv
    have hstep : applyEvents store (e :: rest) =
        applyEvents (processEvent store e).1 rest := rfl
    rw [hstep]
    exact ih _ (fun e' he' => hbs e' (List.mem_cons_of_mem _ he'))
      (processEvent_pos_quantity store e (hbs e (List.mem_cons_self _ _)) hinv)

/-! Claim theorems. -/

lemma processEvent_buy_existing_mk (store : List DBHolding) (t : Transaction) (s : String)
    (q : ℚ) (uid0 sym0 : String) (q0 c0 : ℚ)
    (ht : t.type = "buy") (hs : t.symbol = some s) (hs0 : s ≠ "")
    (hq : t.quantity = some q) (hq0 : q ≠ 0)
    (hf : findHolding store t = some ⟨uid0, sym0, q0, c0⟩) :
    processEvent store t =
      (replaceFirst (rowMatches t)
        ⟨uid0, sym0, q0 + q,
          if q0 + q > 0 then (q0 * c0 + q * (t.amount / q)) / (q0 + q) else c0⟩
        store, .updated) :=
  processEvent_buy_existing store t s q ⟨uid0, sym0, q0, c0⟩ ht hs hs0 hq hq0 hf

lemma processEvent_sell_update_mk (store : List DBHolding) (t : Transaction) (s : String)
    (q : ℚ) (uid0 sym0 : String) (q0 c0 : ℚ)
    (ht : t.type = "sell") (hs : t.symbol = some s) (hs0 : s ≠ "")
    (hq : t.quantity = some q) (hq0 : q ≠ 0)
    (hf : findHolding store t = some ⟨uid0, sym0, q0, c0⟩) (hle : q ≤ q0)
    (hne : q0 - q ≠ 0) :
    processEvent store t =
      (replaceFirst (rowMatches t) ⟨uid0, sym0, q0 - q, c0⟩ store, .soldPartial) :=
  processEvent_sell_update store t s q ⟨uid0, sym0, q0, c0⟩ ht hs hs0 hq hq0 hf hle hne


/-- C1: for a buy event with positive quantity, if no Position exists for the
(user, symbol) pair the new Position has `quantity = event.quantity` and
`average_cost = amount / quantity`; if a Position exists (its quantity being
non-negative, per the data model), the updated Position has
`new_qty = old_qty + event_qty` and
`new_avg = (old_qty * old_avg + event_qty * (amount / event_qty)) / (old_qty + event_qty)`. -/
theorem buy_reduction_correct (store : List DBHolding) (t : Transaction)
    (s : String) (q : ℚ)
    (ht : t.type = "buy") (hs : t.symbol = some s) (hs0 : s ≠ "")
    (hq : t.quantity = some q) (hqpos : 0 < q) :
    (findHolding store t = none →
      processEvent store t =
        (store ++ [⟨t.user_id, s.toUpper, q, t.amount / q⟩], .created))
    ∧ (∀ h, findHolding store t = some h → 0 ≤ h.quantity →
      processEvent store t =
        (replaceFirst (rowMatches t)
          ⟨h.user_id, h.symbol, h.quantity + q,
            (h.quantity * h.average_cost + q * (t.amount / q)) / (h.quantity + q)⟩
          store, .updated)) := by
  constructor
  · intro hf
    exact processEvent_buy_new store t s q ht hs hs0 hq (ne_of_gt hqpos) hf
  · intro h hf hq0
    rw [processEvent_buy_existing store t s q h ht hs hs0 hq (ne_of_gt hqpos) hf]
    have hpos : h.quantity + q > 0 := by linarith
    rw [if_pos hpos]

/-- Witness for `buy_reduction_correct` at the concrete buy of 10 units of
AAPL for a total amount of 1000 against the empty store. -/
theorem buy_reduction_correct_witness :
    (findHolding [] ⟨"t1", "u1", "buy", some "AAPL", some 10, 1000⟩ = none →
      processEvent [] ⟨"t1", "u1", "buy", some "AAPL", some 10, 1000⟩ =
        ([⟨"u1", "AAPL".toUpper, 10, 1000 / 10⟩], .created))
    ∧ (∀ h, findHolding [] ⟨"t1", "u1", "buy", some "AAPL", some 10, 1000⟩ = some h →
        0 ≤ h.quantity →
      processEvent [] ⟨"t1", "u1", "buy", some "AAPL", some 10, 1000⟩ =
        (replaceFirst (rowMatches ⟨"t1", "u1", "buy", some "AAPL", some 10, 1000⟩)
          ⟨h.user_id, h.symbol, h.quantity + 10,
            (h.quantity * h.average_cost + 10 * (1000 / 10)) / (h.quantity + 10)⟩
          [], .updated)) :=
  buy_reduction_correct [] ⟨"t1", "u1", "buy", some "AAPL", some 10, 1000⟩ "AAPL" 10
    rfl rfl (by decide) rfl (by norm_num)

/-- Buy event used to exhibit the absence of any idempotency check:
re-delivering it is re-applied, not skipped. -/
def replayEvent : Transaction := ⟨"t1", "u1", "buy", some "AAPL", some 10, 1000⟩

/-- C2 counterexample: the consumer performs no idempotency check
whatsoever — re-processing the identical event (same `transaction_id`)
changes the stored Position again (quantity is double-counted) and resolves
as a second application (`updated`), not as a skipped duplicate. -/
theorem replay_changes_position :
    applyEvents [] [replayEvent, replayEvent] ≠ applyEvents [] [replayEvent] ∧
    (processEvent (applyEvents [] [replayEvent]) replayEvent).2 = Outcome.updated := by
  have h1 : processEvent [] replayEvent =
      ([⟨"u1", "AAPL".toUpper, 10, 1000 / 10⟩], .created) :=
    processEvent_buy_new [] replayEvent "AAPL" 10 rfl rfl (by decide) rfl (by norm_num) rfl
  have hmatch : rowMatches replayEvent ⟨"u1", "AAPL".toUpper, 10, 1000 / 10⟩ = true := by
    simp [rowMatches, replayEvent, ilikeSym, string_toUpper_idem]
  have h2 : processEvent [⟨"u1", "AAPL".toUpper, 10, 1000 / 10⟩] replayEvent =
      (replaceFirst (rowMatches replayEvent)
        ⟨"u1", "AAPL".toUpper, 10 + 10,
          if (10 : ℚ) + 10 > 0 then
            (10 * (1000 / 10) + 10 * (replayEvent.amount / 10)) / (10 + 10)
          else 1000 / 10⟩
        [⟨"u1", "AAPL".toUpper, 10, 1000 / 10⟩], .updated) :=
    processEvent_buy_existing_mk _ replayEvent "AAPL" 10 "u1" ("AAPL".toUpper) 10 (1000 / 10)
      rfl rfl (by decide) rfl (by norm_num)
      (findHolding_cons_pos _ _ _ hmatch)
  have hone : applyEvents [] [replayEvent] = [⟨"u1", "AAPL".toUpper, 10, 1000 / 10⟩] := by
    show (processEvent [] replayEvent).1 = _
    rw [h1]
  have htwo : applyEvents [] [replayEvent, replayEvent] =
      (processEvent (applyEvents [] [replayEvent]) replayEvent).1 := rfl
  constructor
  · rw [htwo, hone, h2]
    rw [replaceFirst, if_pos hmatch]
    intro heq
    have : (10 : ℚ) + 10 = 10 := congrArg DBHolding.quantity (List.head_eq_of_cons_eq heq)
    norm_num at this
  · rw [hone, h2]

/-- C2 amended: there is no idempotency ledger in the code; re-delivering an
identical buy event is applied a second time, doubling the stored quantity
(the average cost stays `amount / quantity`), with outcome `updated` rather
than any deduplicated/skip resolution. -/
theorem replay_reapplied_double_counts (tid uid sym : String) (hsym : sym ≠ "")
    (q a : ℚ) (hq : 0 < q) :
    applyEvents [] [⟨tid, uid, "buy", some sym, some q, a⟩,
                    ⟨tid, uid, "buy", some sym, some q, a⟩] =
      [⟨uid, sym.toUpper, q + q, a / q⟩] ∧
    (processEvent (applyEvents [] [⟨tid, uid, "buy", some sym, some q, a⟩])
      ⟨tid, uid, "buy", some sym, some q, a⟩).2 = Outcome.updated := by
  have hq0 : q ≠ 0 := ne_of_gt hq
  have h1 : processEvent [] ⟨tid, uid, "buy", some sym, some q, a⟩ =
      ([⟨uid, sym.toUpper, q, a / q⟩], .created) :=
    processEvent_buy_new [] _ sym q rfl rfl hsym rfl hq0 rfl
  have hmatch : rowMatches ⟨tid, uid, "buy", some sym, some q, a⟩
      ⟨uid, sym.toUpper, q, a / q⟩ = true := by
    simp [rowMatches, ilikeSym, string_toUpper_idem]
  have h2 : processEvent [⟨uid, sym.toUpper, q, a / q⟩]
      ⟨tid, uid, "buy", some sym, some q, a⟩ =
      (replaceFirst (rowMatches ⟨tid, uid, "buy", some sym, some q, a⟩)
        ⟨uid, sym.toUpper, q + q,
          if q + q > 0 then (q * (a / q) + q * (a / q)) / (q + q) else a / q⟩
        [⟨uid, sym.toUpper, q, a / q⟩], .updated) :=
    processEvent_buy_existing_mk _ _ sym q uid (sym.toUpper) q (a / q)
      rfl rfl hsym rfl hq0 (findHolding_cons_pos _ _ _ hmatch)
  have hone : applyEvents [] [⟨tid, uid, "buy", some sym, some q, a⟩] =
      [⟨uid, sym.toUpper, q, a / q⟩] := by
    show (processEvent [] ⟨tid, uid, "buy", some sym, some q, a⟩).1 = _
    rw [h1]
  have hpos : q + q > 0 := by linarith
  have havg : (q * (a / q) + q * (a / q)) / (q + q) = a / q := by
    field_simp
    ring
  constructor
  · show (processEvent (applyEvents [] [⟨tid, uid, "buy", some sym, some q, a⟩])
      ⟨tid, uid, "buy", some sym, some q, a⟩).1 = _
    rw [hone, h2]
    rw [replaceFirst, if_pos hmatch, if_pos hpos, havg]
  · rw [hone, h2]

/-- Witness for `replay_reapplied_double_counts` at a concrete buy of 10
units for amount 1000. -/
theorem replay_reapplied_double_counts_witness :
    applyEvents [] [⟨"t9", "u9", "buy", some "MSFT", some 10, 1000⟩,
                    ⟨"t9", "u9", "buy", some "MSFT", some 10, 1000⟩] =
      [⟨"u9", "MSFT".toUpper, 10 + 10, 1000 / 10⟩] ∧
    (processEvent (applyEvents [] [⟨"t9", "u9", "buy", some "MSFT", some 10, 1000⟩])
      ⟨"t9", "u9", "buy", some "MSFT", some 10, 1000⟩).2 = Outcome.updated :=
  replay_reapplied_double_counts "t9" "u9" "MSFT" (by decide) 10 1000 (by norm_num)

/-- C3 counterexample: a sell exceeding the held quantity leaves the Position
unchanged, but its outcome is the source's silent log warning, not the
specification's `Rejected(InsufficientHoldings)` — no dead-letter routing
exists in the code. -/
theorem oversell_not_rejected :
    processEvent [⟨"u1", "AAPL", 5, 100⟩]
        ⟨"t2", "u1", "sell", some "AAPL", some 9, 900⟩ =
      ([⟨"u1", "AAPL", 5, 100⟩], .warnInsufficient) ∧
    Outcome.warnInsufficient ≠ Outcome.rejected Reason.insufficientHoldings := by
  refine ⟨?_, by decide⟩
  exact processEvent_sell_insufficient _ _ "AAPL" 9 ⟨"u1", "AAPL", 5, 100⟩
    rfl rfl (by decide) rfl (by norm_num)
    (findHolding_cons_pos _ _ _ (by simp [rowMatches, ilikeSym]))
    (by norm_num)

/-- C3 amended: a sell whose quantity exceeds the held quantity (or that
targets an absent Position) is not applied and leaves the holdings table
completely unchanged, but the code only emits a log warning
(`warnInsufficient` / `warnNoHolding`); it produces no
`Rejected(InsufficientHoldings)` outcome and routes nothing to a dead-letter
sink. -/
theorem oversell_warning_leaves_store (store : List DBHolding) (t : Transaction)
    (s : String) (q : ℚ)
    (ht : t.type = "sell") (hs : t.symbol = some s) (hs0 : s ≠ "")
    (hq : t.quantity = some q) (hq0 : q ≠ 0) :
    (findHolding store t = none → processEvent store t = (store, .warnNoHolding))
    ∧ (∀ h, findHolding store t = some h → h.quantity < q →
        processEvent store t = (store, .warnInsufficient)) :=
  ⟨fun hf => processEvent_sell_missing store t s q ht hs hs0 hq hq0 hf,
   fun h hf hlt => processEvent_sell_insufficient store t s q h ht hs hs0 hq hq0 hf hlt⟩

/-- Witness for `oversell_warning_leaves_store` at a concrete sell of 3 units
of TSLA against the empty store. -/
theorem oversell_warning_leaves_store_witness :
    (findHolding [] ⟨"t3", "u1", "sell", some "TSLA", some 3, 300⟩ = none →
      processEvent [] ⟨"t3", "u1", "sell", some "TSLA", some 3, 300⟩ =
        ([], .warnNoHolding))
    ∧ (∀ h, findHolding [] ⟨"t3", "u1", "sell", some "TSLA", some 3, 300⟩ = some h →
        h.quantity < 3 →
      processEvent [] ⟨"t3", "u1", "sell", some "TSLA", some 3, 300⟩ =
        ([], .warnInsufficient)) :=
  oversell_warning_leaves_store [] ⟨"t3", "u1", "sell", some "TSLA", some 3, 300⟩
    "TSLA" 3 rfl rfl (by decide) rfl (by norm_num)

/-- C4: a sell with `0 < quantity ≤ held` updates the found Position to
`old_qty - event_qty` leaving `average_cost` unchanged; if the new quantity
is exactly zero the row is deleted instead, and (when the matching row is
unique, as the one-Position-per-pair relationship guarantees) a subsequent
lookup finds nothing. -/
theorem sell_within_holdings (store : List DBHolding) (t : Transaction)
    (s : String) (q : ℚ) (h : DBHolding)
    (ht : t.type = "sell") (hs : t.symbol = some s) (hs0 : s ≠ "")
    (hq : t.quantity = some q) (hqpos : 0 < q)
    (hf : findHolding store t = some h) (hle : q ≤ h.quantity)
    (huniq : store.countP (rowMatches t) ≤ 1) :
    (h.quantity - q ≠ 0 →
      processEvent store t =
        (replaceFirst (rowMatches t)
          ⟨h.user_id, h.symbol, h.quantity - q, h.average_cost⟩ store, .soldPartial))
    ∧ (h.quantity - q = 0 →
      processEvent store t = (removeFirst (rowMatches t) store, .soldDeleted)
      ∧ findHolding (removeFirst (rowMatches t) store) t = none) := by
  constructor
  · intro hne
    exact processEvent_sell_update store t s q h ht hs hs0 hq (ne_of_gt hqpos) hf hle hne
  · intro hz
    exact ⟨processEvent_sell_all store t s q h ht hs hs0 hq (ne_of_gt hqpos) hf hz,
           find?_removeFirst (rowMatches t) store huniq⟩

/-- Witness for `sell_within_holdings`: selling exactly the 5 held units of
AAPL from a one-row table. -/
theorem sell_within_holdings_witness :
    ((5 : ℚ) - 5 ≠ 0 →
      processEvent [⟨"u1", "AAPL", 5, 100⟩]
          ⟨"t4", "u1", "sell", some "AAPL", some 5, 500⟩ =
        (replaceFirst (rowMatches ⟨"t4", "u1", "sell", some "AAPL", some 5, 500⟩)
          ⟨"u1", "AAPL", 5 - 5, 100⟩ [⟨"u1", "AAPL", 5, 100⟩], .soldPartial))
    ∧ ((5 : ℚ) - 5 = 0 →
      processEvent [⟨"u1", "AAPL", 5, 100⟩]
          ⟨"t4", "u1", "sell", some "AAPL", some 5, 500⟩ =
        (removeFirst (rowMatches ⟨"t4", "u1", "sell", some "AAPL", some 5, 500⟩)
          [⟨"u1", "AAPL", 5, 100⟩], .soldDeleted)
      ∧ findHolding
          (removeFirst (rowMatches ⟨"t4", "u1", "sell", some "AAPL", some 5, 500⟩)
            [⟨"u1", "AAPL", 5, 100⟩])
          ⟨"t4", "u1", "sell", some "AAPL", some 5, 500⟩ = none) :=
  sell_within_holdings [⟨"u1", "AAPL", 5, 100⟩]
    ⟨"t4", "u1", "sell", some "AAPL", some 5, 500⟩ "AAPL" 5 ⟨"u1", "AAPL", 5, 100⟩
    rfl rfl (by decide) rfl (by norm_num)
    (findHolding_cons_pos _ _ _ (by simp [rowMatches, ilikeSym]))
    (by norm_num)
    (by simp [List.countP_cons, rowMatches, ilikeSym])

/-- C5 counterexample: a buy whose (unvalidated, negative) quantity brings the
total to exactly zero leaves a zero-quantity row in the table — the buy-update
branch stores `total_qty` unconditionally and only the sell branch deletes
zero rows. -/
theorem zero_quantity_row_reachable :
    ∃ h ∈ applyEvents []
        [⟨"t1", "u1", "buy", some "AAPL", some 5, 50⟩,
         ⟨"t2", "u1", "buy", some "AAPL", some (-5), 0⟩],
      h.quantity = 0 := by
  have h1 : processEvent [] ⟨"t1", "u1", "buy", some "AAPL", some 5, 50⟩ =
      ([⟨"u1", "AAPL".toUpper, 5, 50 / 5⟩], .created) :=
    processEvent_buy_new [] _ "AAPL" 5 rfl rfl (by decide) rfl (by norm_num) rfl
  have hmatch : rowMatches ⟨"t2", "u1", "buy", some "AAPL", some (-5), 0⟩
      ⟨"u1", "AAPL".toUpper, 5, 50 / 5⟩ = true := by
    simp [rowMatches, ilikeSym, string_toUpper_idem]
  have h2 : processEvent [⟨"u1", "AAPL".toUpper, 5, 50 / 5⟩]
      ⟨"t2", "u1", "buy", some "AAPL", some (-5), 0⟩ =
      (replaceFirst (rowMatches ⟨"t2", "u1", "buy", some "AAPL", some (-5), 0⟩)
        ⟨"u1", "AAPL".toUpper, 5 + (-5),
          if (5 : ℚ) + (-5) > 0 then
            (5 * (50 / 5) +
              (-5) * ((⟨"t2", "u1", "buy", some "AAPL", some (-5), 0⟩ :
                Transaction).amount / (-5))) / (5 + (-5))
          else 50 / 5⟩
        [⟨"u1", "AAPL".toUpper, 5, 50 / 5⟩], .updated) :=
    processEvent_buy_existing_mk _ _ "AAPL" (-5) "u1" ("AAPL".toUpper) 5 (50 / 5)
      rfl rfl (by decide) rfl (by norm_num) (findHolding_cons_pos _ _ _ hmatch)
  have hfin : applyEvents []
      [⟨"t1", "u1", "buy", some "AAPL", some 5, 50⟩,
       ⟨"t2", "u1", "buy", some "AAPL", some (-5), 0⟩] =
      [⟨"u1", "AAPL".toUpper, 5 + (-5),
        if (5 : ℚ) + (-5) > 0 then
          (5 * (50 / 5) +
            (-5) * ((⟨"t2", "u1", "buy", some "AAPL", some (-5), 0⟩ :
              Transaction).amount / (-5))) / (5 + (-5))
        else 50 / 5⟩] := by
    show (processEvent (processEvent [] ⟨"t1", "u1", "buy", some "AAPL", some 5, 50⟩).1
      ⟨"t2", "u1", "buy", some "AAPL", some (-5), 0⟩).1 = _
    rw [h1]
    show (processEvent [⟨"u1", "AAPL".toUpper, 5, 50 / 5⟩]
      ⟨"t2", "u1", "buy", some "AAPL", some (-5), 0⟩).1 = _
    rw [h2]
    rw [replaceFirst, if_pos hmatch]
  rw [hfin]
  refine ⟨_, List.mem_singleton_self _, ?_⟩
  show (5 : ℚ) + (-5) = 0
  norm_num

/-- C5 amended: the no-zero-quantity-row invariant holds for every event
sequence in which each buy event carries a positive quantity (as well-formed
buys do); without that restriction a negative-quantity buy can leave a
zero-quantity row, see the counterexample. -/
theorem no_zero_rows_for_positive_buys (events : List Transaction)
    (hb : ∀ e ∈ events, e.type = "buy" → ∀ q, e.quantity = some q → 0 < q) :
    ∀ h ∈ applyEvents [] events, h.quantity ≠ 0 := by
  intro h hh
  exact ne_of_gt (applyEvents_pos_quantity events [] hb (by simp) h hh)

/-- Witness for `no_zero_rows_for_positive_buys`: the row left by a concrete
single positive buy has non-zero quantity. -/
theorem no_zero_rows_for_positive_buys_witness :
    (⟨"u1", "AAPL".toUpper, 5, 50 / 5⟩ : DBHolding).quantity ≠ 0 :=
  no_zero_rows_for_positive_buys
    [⟨"t1", "u1", "buy", some "AAPL", some 5, 50⟩]
    (by
      intro e he htb q hqe
      rcases List.mem_cons.mp he with rfl | he2
      · have h5 : (5 : ℚ) = q := Option.some.inj hqe
        rw [← h5]
        norm_num
      · exact absurd he2 (List.not_mem_nil e))
    ⟨"u1", "AAPL".toUpper, 5, 50 / 5⟩
    (by
      have h1 : processEvent [] ⟨"t1", "u1", "buy", some "AAPL", some 5, 50⟩ =
          ([⟨"u1", "AAPL".toUpper, 5, 50 / 5⟩], .created) :=
        processEvent_buy_new [] _ "AAPL" 5 rfl rfl (by decide) rfl (by norm_num) rfl
      show (⟨"u1", "AAPL".toUpper, 5, 50 / 5⟩ : DBHolding) ∈
        (processEvent [] ⟨"t1", "u1", "buy", some "AAPL", some 5, 50⟩).1
      rw [h1]
      exact List.mem_singleton_self _)

/-- C6: for any non-empty sequence of buys (positive quantities, non-negative
amounts) on a fresh (user, symbol), and any delivery order (permutation), the
final table holds exactly one Position whose quantity is the sum of the event
quantities and whose average cost is the quantity-weighted mean of the
per-event unit prices `amount / quantity`; the result is expressed over the
reference order `l`, so evaluating it on any permutation `l2` shows order
independence. -/
theorem buys_weighted_mean_order_independent (uid sym : String) (hsym : sym ≠ "")
    (l l2 : List (ℚ × ℚ)) (hl : l ≠ []) (hperm : l.Perm l2)
    (hqpos : ∀ p ∈ l, 0 < p.1) (_hamt : ∀ p ∈ l, 0 ≤ p.2) :
    applyEvents [] (l2.map (mkBuy uid sym)) =
      [⟨uid, sym.toUpper, (l.map Prod.fst).sum,
        (l.map fun p => p.1 * (p.2 / p.1)).sum / (l.map Prod.fst).sum⟩] := by
  have hq2 : ∀ p ∈ l2, 0 < p.1 := fun p hp => hqpos p (hperm.mem_iff.mpr hp)
  have hsum_q : (l.map Prod.fst).sum = (l2.map Prod.fst).sum :=
    (hperm.map Prod.fst).sum_eq
  have hsum_w : (l.map fun p => p.1 * (p.2 / p.1)).sum = (l.map Prod.snd).sum :=
    sum_weighted_eq_sum_amount l fun p hp => ne_of_gt (hqpos p hp)
  have hsum_a : (l.map Prod.snd).sum = (l2.map Prod.snd).sum :=
    (hperm.map Prod.snd).sum_eq
  rw [hsum_w, hsum_q, hsum_a]
  cases l2 with
  | nil => exact absurd (List.Perm.eq_nil hperm) hl
  | cons p rest =>
    have hp : 0 < p.1 := hq2 p (List.mem_cons_self _ _)
    have h1 : processEvent [] (mkBuy uid sym p) =
        ([⟨uid, sym.toUpper, p.1, p.2 / p.1⟩], .created) :=
      processEvent_buy_new [] _ sym p.1 rfl rfl hsym rfl (ne_of_gt hp) rfl
    show applyEvents (processEvent [] (mkBuy uid sym p)).1
      (rest.map (mkBuy uid sym)) = _
    rw [h1]
    rw [applyEvents_buys uid sym hsym rest p.1 p.2
      (fun x hx => hq2 x (List.mem_cons_of_mem _ hx)) hp]
    simp only [List.map_cons, List.sum_cons]

/-- Witness for `buys_weighted_mean_order_independent` on three distinct-price
buys delivered in swapped order. -/
theorem buys_weighted_mean_order_independent_witness :
    applyEvents []
        ([((5 : ℚ), (600 : ℚ)), (10, 1000), (5, 400)].map (mkBuy "u1" "AAPL")) =
      [⟨"u1", "AAPL".toUpper,
        ([((10 : ℚ), (1000 : ℚ)), (5, 600), (5, 400)].map Prod.fst).sum,
        ([((10 : ℚ), (1000 : ℚ)), (5, 600), (5, 400)].map
          fun p => p.1 * (p.2 / p.1)).sum /
          ([((10 : ℚ), (1000 : ℚ)), (5, 600), (5, 400)].map Prod.fst).sum⟩] :=
  buys_weighted_mean_order_independent "u1" "AAPL" (by decide)
    [((10 : ℚ), (1000 : ℚ)), (5, 600), (5, 400)]
    [((5 : ℚ), (600 : ℚ)), (10, 1000), (5, 400)]
    (by simp)
    (List.Perm.swap ((5 : ℚ), (600 : ℚ)) ((10 : ℚ), (1000 : ℚ)) [((5 : ℚ), (400 : ℚ))])
    (by norm_num)
    (by norm_num)

/-- C7 counterexample: a buy with negative quantity passes the truthiness
guard, is silently applied, and creates a Position with negative quantity and
negative average cost; its outcome is `created`, not `Rejected(Malformed)`. -/
theorem negative_buy_mutates_store :
    processEvent [] ⟨"t1", "u1", "buy", some "AAPL", some (-5), 100⟩ =
      ([⟨"u1", "AAPL".toUpper, -5, 100 / (-5)⟩], .created) ∧
    Outcome.created ≠ Outcome.rejected Reason.malformed := by
  refine ⟨?_, by decide⟩
  exact processEvent_buy_new [] _ "AAPL" (-5) rfl rfl (by decide) rfl (by norm_num) rfl

/-- C7 amended: events whose symbol is missing/empty or whose quantity is
missing or exactly zero are skipped without touching any Position, but with
the silent fall-through outcome `noOp` rather than `Rejected(Malformed)`;
events with negative quantity or negative amount are not rejected at all —
they are applied (see the counterexample). -/
theorem falsy_fields_noop (store : List DBHolding) (t : Transaction)
    (h : symTruthy t.symbol = false ∨ qtyTruthy t.quantity = false) :
    processEvent store t = (store, .noOp) :=
  processEvent_falsy store t h

/-- Witness for `falsy_fields_noop`: a buy with quantity exactly 0 on a
one-row table. -/
theorem falsy_fields_noop_witness :
    processEvent [⟨"u1", "AAPL", 5, 100⟩]
        ⟨"t5", "u1", "buy", some "AAPL", some 0, 100⟩ =
      ([⟨"u1", "AAPL", 5, 100⟩], .noOp) :=
  falsy_fields_noop [⟨"u1", "AAPL", 5, 100⟩]
    ⟨"t5", "u1", "buy", some "AAPL", some 0, 100⟩ (Or.inr (by decide))

/-- C8: deposit and withdrawal events take the fall-through branch: the
holdings table is returned untouched (no Position created, mutated or
deleted) with outcome `noOp`. -/
theorem deposit_withdrawal_noop (store : List DBHolding) (t : Transaction)
    (h : t.type = "deposit" ∨ t.type = "withdrawal") :
    processEvent store t = (store, .noOp) := by
  rcases h with h | h <;>
    exact processEvent_other_type store t (by rw [h]; decide) (by rw [h]; decide)

/-- Witness for `deposit_withdrawal_noop`: a deposit for a user with no
Positions, on the empty table. -/
theorem deposit_withdrawal_noop_witness :
    processEvent [] ⟨"t6", "u2", "deposit", none, none, 500⟩ = ([], .noOp) :=
  deposit_withdrawal_noop [] ⟨"t6", "u2", "deposit", none, none, 500⟩ (Or.inl rfl)

/-- C9: the reduction step is deterministic — two transitions from the same
holdings table on the same event reach the same new table and the same
outcome. (`Reduces` is the branch-level transition relation of the consumer
body; the embedding carries no I/O, so the step is side-effect free by
construction.) -/
theorem reducer_deterministic (store : List DBHolding) (t : Transaction)
    (s1 s2 : List DBHolding) (o1 o2 : Outcome)
    (h1 : Reduces store t s1 o1) (h2 : Reduces store t s2 o2) :
    s1 = s2 ∧ o1 = o2 := by
  have e1 := reduces_processEvent store t s1 o1 h1
  have e2 := reduces_processEvent store t s2 o2 h2
  rw [e1] at e2
  injection e2 with ha hb
  exact ⟨ha, hb⟩

/-- Witness for `reducer_deterministic`: two derivations for the same deposit
event on the empty table. -/
theorem reducer_deterministic_witness :
    ([] : List DBHolding) = [] ∧ Outcome.noOp = Outcome.noOp :=
  reducer_deterministic [] ⟨"t7", "u1", "deposit", none, none, 50⟩ [] [] .noOp .noOp
    (Reduces.fallThrough [] _ (by decide) (by decide))
    (Reduces.fallThrough [] _ (by decide) (by decide))

/-- C10: the lookup preceding both the buy and the sell branch matches
symbols case-insensitively (a stored row whose symbol differs from the
event's only by letter case is found), a buy that finds such a row updates it
in place (same table length, outcome `updated`) instead of creating a second
Position, and a first buy stores the symbol upper-cased. -/
theorem symbol_matching_case_insensitive (store : List DBHolding) (t : Transaction)
    (s : String) (q : ℚ)
    (hs : t.symbol = some s) (hs0 : s ≠ "") (hq : t.quantity = some q) (hq0 : q ≠ 0) :
    (∀ h ∈ store, h.user_id = t.user_id → h.symbol.toUpper = s.toUpper →
      (findHolding store t).isSome)
    ∧ (t.type = "buy" → ∀ h0, findHolding store t = some h0 →
      (processEvent store t).1.length = store.length ∧
      (processEvent store t).2 = .updated)
    ∧ (t.type = "buy" → findHolding store t = none →
      processEvent store t =
        (store ++ [⟨t.user_id, s.toUpper, q, t.amount / q⟩], .created)) := by
  refine ⟨?_, ?_, ?_⟩
  · intro h hmem hu hsym
    apply List.find?_isSome.mpr
    exact ⟨h, hmem, by simp [rowMatches, ilikeSym, hs, hu, hsym]⟩
  · intro htb h0 hf
    rw [processEvent_buy_existing store t s q h0 htb hs hs0 hq hq0 hf]
    exact ⟨length_replaceFirst _ _ _, rfl⟩
  · intro htb hf
    exact processEvent_buy_new store t s q htb hs hs0 hq hq0 hf

/-- Witness for `symbol_matching_case_insensitive`: a buy of lowercase "aapl"
against a table storing the symbol as "AAPL". -/
theorem symbol_matching_case_insensitive_witness :
    (∀ h ∈ [(⟨"u1", "AAPL", 5, 100⟩ : DBHolding)],
      h.user_id = (⟨"t8", "u1", "buy", some "aapl", some 2, 300⟩ : Transaction).user_id →
      h.symbol.toUpper = "aapl".toUpper →
      (findHolding [⟨"u1", "AAPL", 5, 100⟩]
        ⟨"t8", "u1", "buy", some "aapl", some 2, 300⟩).isSome)
    ∧ ((⟨"t8", "u1", "buy", some "aapl", some 2, 300⟩ : Transaction).type = "buy" →
      ∀ h0, findHolding [⟨"u1", "AAPL", 5, 100⟩]
          ⟨"t8", "u1", "buy", some "aapl", some 2, 300⟩ = some h0 →
      (processEvent [⟨"u1", "AAPL", 5, 100⟩]
        ⟨"t8", "u1", "buy", some "aapl", some 2, 300⟩).1.length =
          [(⟨"u1", "AAPL", 5, 100⟩ : DBHolding)].length ∧
      (processEvent [⟨"u1", "AAPL", 5, 100⟩]
        ⟨"t8", "u1", "buy", some "aapl", some 2, 300⟩).2 = .updated)
    ∧ ((⟨"t8", "u1", "buy", some "aapl", some 2, 300⟩ : Transaction).type = "buy" →
      findHolding [⟨"u1", "AAPL", 5, 100⟩]
        ⟨"t8", "u1", "buy", some "aapl", some 2, 300⟩ = none →
      processEvent [⟨"u1", "AAPL", 5, 100⟩]
        ⟨"t8", "u1", "buy", some "aapl", some 2, 300⟩ =
        ([⟨"u1", "AAPL", 5, 100⟩] ++ [⟨"u1", "aapl".toUpper, 2, 300 / 2⟩], .created)) :=
  symbol_matching_case_insensitive [⟨"u1", "AAPL", 5, 100⟩]
    ⟨"t8", "u1", "buy", some "aapl", some 2, 300⟩ "aapl" 2
    rfl (by decide) rfl (by norm_num)
end PortfolioService
